import Mathlib

/-
Verification of the stockanalyzer live trade simulator and score
calculators.

The live-simulation loop is embedded from
`frontend/components/TradeSimulator.tsx`: JavaScript numbers are
modelled as rationals, timestamps (ISO strings / epoch milliseconds)
as integers, and the React component state as an explicit record.
The fallible network fetch of a refresh tick is modelled as an
`Option` argument.  The composite and sentiment score calculators
live in the backend, which is not part of the staged sources; they
are modelled from the specification (and from the formulas quoted in
the repository's documentation files).
-/

/-- A strategy signal value, `liveSignal.signal` in the component
(the source compares string literals BUY and SELL; any other
string behaves as HOLD). -/
inductive SignalKind
  | BUY
  | SELL
  | HOLD
deriving DecidableEq, Repr

/-- The payload returned by the live-trade endpoint and stored in
`liveSignal`: the signal value and the current price. -/
structure Signal where
  signal : SignalKind
  current_price : ℚ
deriving DecidableEq, Repr

/-- `tx.type` of a recorded transaction. -/
inductive TradeType
  | buy
  | sell
deriving DecidableEq, Repr

/-- A recorded transaction, as appended by the auto-execution effect. -/
structure Trade where
  ty : TradeType
  shares : ℤ
  price : ℚ
  timestamp : ℤ
  balance_after : ℚ
deriving DecidableEq, Repr

/-- The component state of `TradeSimulator`, restricted to the live
simulation: `liveMode`, `liveSignal`, `liveBalance`, `livePosition`,
`liveTransactions` (newest first), `lastUpdateTime`, `liveStartTime`. -/
structure SimState where
  liveMode : Bool
  liveSignal : Option Signal
  liveBalance : ℚ
  livePosition : ℤ
  liveTransactions : List Trade
  lastUpdateTime : Option ℤ
  liveStartTime : Option ℤ
deriving DecidableEq, Repr

/-- `liveInitialCapital`, fixed by `useState(10000)`. -/
def liveInitialCapital : ℚ := 10000

/-- The component state on first mount (before any persistence load):
`liveMode` false, no signal, balance 10000, no position, no
transactions. -/
def initialComponentState : SimState :=
  { liveMode := false
    liveSignal := none
    liveBalance := 10000
    livePosition := 0
    liveTransactions := []
    lastUpdateTime := none
    liveStartTime := none }

/-- The automatic trade-execution effect (the `useEffect` on
`[liveSignal, liveMode]`, TradeSimulator.tsx lines 144-180).  It
returns early unless `liveMode` is on and a signal is present; a BUY
signal with a flat position buys `Math.floor(liveBalance / price)`
shares when that count is positive; a SELL signal with a held
position liquidates it entirely.  `now` is the wall clock used for
the recorded trade's timestamp. -/
def executeAuto (st : SimState) (now : ℤ) : SimState :=
  match st.liveSignal with
  | none => st
  | some sig =>
    if st.liveMode = false then st
    else
      let price := sig.current_price
      if sig.signal = SignalKind.BUY ∧ st.livePosition = 0 then
        let sharesToBuy : ℤ := ⌊st.liveBalance / price⌋
        if 0 < sharesToBuy then
          let cost : ℚ := sharesToBuy * price
          { st with
              liveBalance := st.liveBalance - cost
              livePosition := st.livePosition + sharesToBuy
              liveTransactions :=
                { ty := TradeType.buy
                  shares := sharesToBuy
                  price := price
                  timestamp := now
                  balance_after := st.liveBalance - cost } :: st.liveTransactions }
        else st
      else if sig.signal = SignalKind.SELL ∧ 0 < st.livePosition then
        let revenue : ℚ := st.livePosition * price
        { st with
            liveBalance := st.liveBalance + revenue
            livePosition := 0
            liveTransactions :=
              { ty := TradeType.sell
                shares := st.livePosition
                price := price
                timestamp := now
                balance_after := st.liveBalance + revenue } :: st.liveTransactions }
      else st

/-- `refreshLiveSignal` (TradeSimulator.tsx lines 236-259): a no-op
unless `liveMode` is on; on a successful fetch it stores the new
signal and the update time; when the fetch (or JSON decode) throws,
the `catch` block only logs and no state is touched. -/
def refreshLiveSignal (st : SimState) (fetchResult : Option Signal) (now : ℤ) : SimState :=
  if st.liveMode = false then st
  else
    match fetchResult with
    | none => st
    | some data =>
        { st with liveSignal := some data, lastUpdateTime := some now }

/-- `liveSignal?.current_price || 0` in `stopLiveSimulation`. -/
def priceOrZero (s : Option Signal) : ℚ :=
  match s with
  | some sig => sig.current_price
  | none => 0

/-- The result of a fired BUY: the position-sized purchase recorded by
the effect's BUY branch. -/
def buyResult (st : SimState) (sig : Signal) (now : ℤ) : SimState :=
  { st with
      liveBalance := st.liveBalance - ⌊st.liveBalance / sig.current_price⌋ * sig.current_price
      livePosition := st.livePosition + ⌊st.liveBalance / sig.current_price⌋
      liveTransactions :=
        { ty := TradeType.buy
          shares := ⌊st.liveBalance / sig.current_price⌋
          price := sig.current_price
          timestamp := now
          balance_after :=
            st.liveBalance - ⌊st.liveBalance / sig.current_price⌋ * sig.current_price }
          :: st.liveTransactions }

/-- The result of a fired SELL: full liquidation recorded by the
effect's SELL branch. -/
def sellResult (st : SimState) (sig : Signal) (now : ℤ) : SimState :=
  { st with
      liveBalance := st.liveBalance + st.livePosition * sig.current_price
      livePosition := 0
      liveTransactions :=
        { ty := TradeType.sell
          shares := st.livePosition
          price := sig.current_price
          timestamp := now
          balance_after := st.liveBalance + st.livePosition * sig.current_price }
          :: st.liveTransactions }

lemma executeAuto_of_no_signal (st : SimState) (now : ℤ) (h : st.liveSignal = none) :
    executeAuto st now = st := by
  simp [executeAuto, h]

lemma executeAuto_of_not_mode (st : SimState) (now : ℤ) (h : st.liveMode = false) :
    executeAuto st now = st := by
  rcases hs : st.liveSignal with _ | sig <;> simp [executeAuto, hs, h]

lemma executeAuto_buy_fire (st : SimState) (now : ℤ) (sig : Signal)
    (hs : st.liveSignal = some sig) (hm : st.liveMode = true)
    (hc : sig.signal = SignalKind.BUY ∧ st.livePosition = 0)
    (hn : 0 < ⌊st.liveBalance / sig.current_price⌋) :
    executeAuto st now = buyResult st sig now := by
  simp only [executeAuto, hs, hm]
  rw [if_neg (by simp), if_pos hc, if_pos hn]
  simp [buyResult, hs, hm]

lemma executeAuto_buy_nofire (st : SimState) (now : ℤ) (sig : Signal)
    (hs : st.liveSignal = some sig) (hm : st.liveMode = true)
    (hc : sig.signal = SignalKind.BUY ∧ st.livePosition = 0)
    (hn : ¬ 0 < ⌊st.liveBalance / sig.current_price⌋) :
    executeAuto st now = st := by
  simp only [executeAuto, hs, hm]
  rw [if_neg (by simp), if_pos hc, if_neg hn]

lemma executeAuto_sell_fire (st : SimState) (now : ℤ) (sig : Signal)
    (hs : st.liveSignal = some sig) (hm : st.liveMode = true)
    (hb : ¬ (sig.signal = SignalKind.BUY ∧ st.livePosition = 0))
    (hc : sig.signal = SignalKind.SELL ∧ 0 < st.livePosition) :
    executeAuto st now = sellResult st sig now := by
  simp only [executeAuto, hs, hm]
  rw [if_neg (by simp), if_neg hb, if_pos hc]
  simp [sellResult, hs, hm]

lemma executeAuto_nofire (st : SimState) (now : ℤ) (sig : Signal)
    (hs : st.liveSignal = some sig) (hm : st.liveMode = true)
    (hb : ¬ (sig.signal = SignalKind.BUY ∧ st.livePosition = 0))
    (hc : ¬ (sig.signal = SignalKind.SELL ∧ 0 < st.livePosition)) :
    executeAuto st now = st := by
  simp only [executeAuto, hs, hm]
  rw [if_neg (by simp), if_neg hb, if_neg hc]

/-- The auto-execution effect never changes the mode or the stored
signal. -/
lemma executeAuto_preserves_signal (st : SimState) (now : ℤ) :
    (executeAuto st now).liveSignal = st.liveSignal ∧
      (executeAuto st now).liveMode = st.liveMode := by
  rcases hs : st.liveSignal with _ | sig
  · rw [executeAuto_of_no_signal st now hs]; exact ⟨hs, rfl⟩
  · rcases hm : st.liveMode with _ | _
    · rw [executeAuto_of_not_mode st now hm]; exact ⟨hs, hm⟩
    · by_cases hb : sig.signal = SignalKind.BUY ∧ st.livePosition = 0
      · by_cases hn : 0 < ⌊st.liveBalance / sig.current_price⌋
        · rw [executeAuto_buy_fire st now sig hs hm hb hn]; exact ⟨hs, hm⟩
        · rw [executeAuto_buy_nofire st now sig hs hm hb hn]; exact ⟨hs, hm⟩
      · by_cases hc : sig.signal = SignalKind.SELL ∧ 0 < st.livePosition
        · rw [executeAuto_sell_fire st now sig hs hm hb hc]; exact ⟨hs, hm⟩
        · rw [executeAuto_nofire st now sig hs hm hb hc]; exact ⟨hs, hm⟩

theorem executeAuto_no_trade_check :
    executeAuto
      { liveMode := true
        liveSignal := some { signal := SignalKind.BUY, current_price := 100 }
        liveBalance := 50
        livePosition := 0
        liveTransactions := []
        lastUpdateTime := none
        liveStartTime := none } 0 =
      { liveMode := true
        liveSignal := some { signal := SignalKind.BUY, current_price := 100 }
        liveBalance := 50
        livePosition := 0
        liveTransactions := []
        lastUpdateTime := none
        liveStartTime := none } := by
  norm_num [executeAuto]

/-- Applying the auto-execution effect twice in a row (the stored
signal unchanged in between) is the same as applying it once: the
second application never fires another trade. -/
lemma executeAuto_idem (st : SimState) (n1 n2 : ℤ) :
    executeAuto (executeAuto st n1) n2 = executeAuto st n1 := by
  rcases hs : st.liveSignal with _ | sig
  · rw [executeAuto_of_no_signal st n1 hs, executeAuto_of_no_signal st n2 hs]
  · rcases hm : st.liveMode with _ | _
    · rw [executeAuto_of_not_mode st n1 hm, executeAuto_of_not_mode st n2 hm]
    · by_cases hb : sig.signal = SignalKind.BUY ∧ st.livePosition = 0
      · by_cases hn : 0 < ⌊st.liveBalance / sig.current_price⌋
        · rw [executeAuto_buy_fire st n1 sig hs hm hb hn]
          refine executeAuto_nofire _ n2 sig hs hm ?_ ?_
          · rintro ⟨-, hpos⟩
            rw [buyResult] at hpos
            simp only [hb.2, zero_add] at hpos
            omega
          · rintro ⟨hsig, -⟩
            rw [hb.1] at hsig
            exact SignalKind.noConfusion hsig
        · rw [executeAuto_buy_nofire st n1 sig hs hm hb hn,
            executeAuto_buy_nofire st n2 sig hs hm hb hn]
      · by_cases hc : sig.signal = SignalKind.SELL ∧ 0 < st.livePosition
        · rw [executeAuto_sell_fire st n1 sig hs hm hb hc]
          refine executeAuto_nofire _ n2 sig hs hm ?_ ?_
          · rintro ⟨hsig, -⟩
            rw [hc.1] at hsig
            exact SignalKind.noConfusion hsig
          · rintro ⟨-, hpos⟩
            rw [sellResult] at hpos
            simp at hpos
        · rw [executeAuto_nofire st n1 sig hs hm hb hc,
            executeAuto_nofire st n2 sig hs hm hb hc]

/-- The effect fires a BUY: exactly one new buy transaction is
prepended to the log. -/
def firesBuy (st : SimState) (now : ℤ) : Prop :=
  ∃ tx : Trade,
    (executeAuto st now).liveTransactions = tx :: st.liveTransactions ∧ tx.ty = TradeType.buy

/-- The effect fires a SELL: exactly one new sell transaction is
prepended to the log. -/
def firesSell (st : SimState) (now : ℤ) : Prop :=
  ∃ tx : Trade,
    (executeAuto st now).liveTransactions = tx :: st.liveTransactions ∧ tx.ty = TradeType.sell

lemma not_fires_of_self (st : SimState) (now : ℤ) (h : executeAuto st now = st) :
    ¬ firesBuy st now ∧ ¬ firesSell st now := by
  constructor <;> rintro ⟨tx, htx, -⟩ <;> rw [h] at htx <;>
    exact absurd (congrArg List.length htx) (by simp)

/-- C1 (counterexample): the claimed biconditional "a BUY trade
executes if and only if the signal is BUY and shares_held equals 0"
fails on the code: with balance 50, a flat position and a BUY signal
at price 100, `Math.floor(50 / 100) = 0` shares fit, so the guard
`sharesToBuy > 0` blocks the trade and the transaction log stays
empty even though the signal is BUY and shares_held is 0. -/
theorem autoExec_buy_iff_cex :
    let st : SimState :=
      { liveMode := true
        liveSignal := some { signal := SignalKind.BUY, current_price := 100 }
        liveBalance := 50
        livePosition := 0
        liveTransactions := []
        lastUpdateTime := none
        liveStartTime := none }
    st.liveMode = true ∧
      st.liveSignal = some { signal := SignalKind.BUY, current_price := 100 } ∧
      st.livePosition = 0 ∧ (executeAuto st 0).liveTransactions = [] := by
  refine ⟨rfl, rfl, rfl, ?_⟩
  norm_num [executeAuto]

/-- C1 (amended): in live mode with a stored signal, a BUY trade
executes iff the signal is BUY, shares_held is 0 and additionally
floor(cash/price) ≥ 1; a SELL trade executes iff the signal is SELL
and shares_held > 0; and the auto-execution step is idempotent in
the signal value: applying it a second time with the same stored
signal produces no new trade and no state change at all. -/
theorem autoExec_value_iff_and_idempotent (st : SimState) (now : ℤ) (sig : Signal)
    (hs : st.liveSignal = some sig) (hm : st.liveMode = true) :
    (firesBuy st now ↔
      sig.signal = SignalKind.BUY ∧ st.livePosition = 0 ∧
        1 ≤ ⌊st.liveBalance / sig.current_price⌋) ∧
    (firesSell st now ↔ sig.signal = SignalKind.SELL ∧ 0 < st.livePosition) ∧
    (∀ later : ℤ, executeAuto (executeAuto st now) later = executeAuto st now) := by
  refine ⟨?_, ?_, fun later => executeAuto_idem st now later⟩
  · simp only [firesBuy]
    by_cases hb : sig.signal = SignalKind.BUY ∧ st.livePosition = 0
    · by_cases hn : 0 < ⌊st.liveBalance / sig.current_price⌋
      · rw [executeAuto_buy_fire st now sig hs hm hb hn]
        exact iff_of_true ⟨_, rfl, rfl⟩ ⟨hb.1, hb.2, by omega⟩
      · rw [executeAuto_buy_nofire st now sig hs hm hb hn]
        refine iff_of_false ?_ ?_
        · rintro ⟨tx, htx, -⟩
          exact absurd (congrArg List.length htx) (by simp)
        · rintro ⟨-, -, h1⟩
          omega
    · refine iff_of_false ?_ (fun h => hb ⟨h.1, h.2.1⟩)
      by_cases hc : sig.signal = SignalKind.SELL ∧ 0 < st.livePosition
      · rw [executeAuto_sell_fire st now sig hs hm hb hc]
        rintro ⟨tx, htx, hty⟩
        simp only [sellResult, List.cons.injEq] at htx
        rw [← htx.1] at hty
        exact absurd hty (by simp)
      · rw [executeAuto_nofire st now sig hs hm hb hc]
        rintro ⟨tx, htx, -⟩
        exact absurd (congrArg List.length htx) (by simp)
  · simp only [firesSell]
    by_cases hc : sig.signal = SignalKind.SELL ∧ 0 < st.livePosition
    · have hb : ¬ (sig.signal = SignalKind.BUY ∧ st.livePosition = 0) := by
        rintro ⟨h1, -⟩
        rw [h1] at hc
        exact absurd hc.1 (by simp)
      rw [executeAuto_sell_fire st now sig hs hm hb hc]
      exact iff_of_true ⟨_, rfl, rfl⟩ hc
    · refine iff_of_false ?_ hc
      by_cases hb : sig.signal = SignalKind.BUY ∧ st.livePosition = 0
      · by_cases hn : 0 < ⌊st.liveBalance / sig.current_price⌋
        · rw [executeAuto_buy_fire st now sig hs hm hb hn]
          rintro ⟨tx, htx, hty⟩
          simp only [buyResult, List.cons.injEq] at htx
          rw [← htx.1] at hty
          exact absurd hty (by simp)
        · rw [executeAuto_buy_nofire st now sig hs hm hb hn]
          rintro ⟨tx, htx, -⟩
          exact absurd (congrArg List.length htx) (by simp)
      · rw [executeAuto_nofire st now sig hs hm hb hc]
        rintro ⟨tx, htx, -⟩
        exact absurd (congrArg List.length htx) (by simp)

/-- Witness for the amended C1 at a concrete input: a SELL signal
with three shares held fires, and the step is idempotent there. -/
theorem autoExec_value_iff_and_idempotent_witness :
    (firesSell
        { liveMode := true
          liveSignal := some { signal := SignalKind.SELL, current_price := 50 }
          liveBalance := 20
          livePosition := 3
          liveTransactions := []
          lastUpdateTime := none
          liveStartTime := none } 4 ↔
      SignalKind.SELL = SignalKind.SELL ∧
        (0 : ℤ) <
          (SimState.livePosition
            { liveMode := true
              liveSignal := some { signal := SignalKind.SELL, current_price := 50 }
              liveBalance := 20
              livePosition := 3
              liveTransactions := []
              lastUpdateTime := none
              liveStartTime := none })) ∧
    executeAuto
        (executeAuto
          { liveMode := true
            liveSignal := some { signal := SignalKind.SELL, current_price := 50 }
            liveBalance := 20
            livePosition := 3
            liveTransactions := []
            lastUpdateTime := none
            liveStartTime := none } 4) 9 =
      executeAuto
        { liveMode := true
          liveSignal := some { signal := SignalKind.SELL, current_price := 50 }
          liveBalance := 20
          livePosition := 3
          liveTransactions := []
          lastUpdateTime := none
          liveStartTime := none } 4 :=
  ⟨(autoExec_value_iff_and_idempotent _ 4 _ rfl rfl).2.1,
    (autoExec_value_iff_and_idempotent _ 4 _ rfl rfl).2.2 9⟩

/-- The position-sized cost `Math.floor(cash / price) * price` never
exceeds the available cash when the price is positive. -/
lemma floor_cost_le (bal price : ℚ) (hp : 0 < price) :
    (⌊bal / price⌋ : ℚ) * price ≤ bal := by
  have h1 : ((⌊bal / price⌋ : ℤ) : ℚ) ≤ bal / price := Int.floor_le _
  have h2 := mul_le_mul_of_nonneg_right h1 hp.le
  rwa [div_mul_cancel₀ _ hp.ne'] at h2

/-- C2: the auto-execution step preserves the Portfolio State
invariant.  From cash ≥ 0, shares_held ≥ 0 and a positive price:
cash and shares_held stay nonnegative; a BUY at a flat position with
floor(cash/price) ≥ 1 buys exactly floor(cash/price) shares at cost
floor(cash/price)·price ≤ cash, while floor(cash/price) < 1 executes
nothing; and a SELL with a held position liquidates it entirely,
leaving exactly 0 shares. -/
theorem tradeExec_preserves_portfolio_invariant (st : SimState) (now : ℤ) (sig : Signal)
    (hs : st.liveSignal = some sig) (hm : st.liveMode = true)
    (hb0 : 0 ≤ st.liveBalance) (hp0 : 0 ≤ st.livePosition)
    (hpr : 0 < sig.current_price) :
    (0 ≤ (executeAuto st now).liveBalance ∧ 0 ≤ (executeAuto st now).livePosition) ∧
    (sig.signal = SignalKind.BUY → st.livePosition = 0 →
      (1 ≤ ⌊st.liveBalance / sig.current_price⌋ →
        (executeAuto st now).livePosition = ⌊st.liveBalance / sig.current_price⌋ ∧
          (executeAuto st now).liveBalance =
            st.liveBalance - ⌊st.liveBalance / sig.current_price⌋ * sig.current_price ∧
          (⌊st.liveBalance / sig.current_price⌋ : ℚ) * sig.current_price ≤ st.liveBalance) ∧
      (⌊st.liveBalance / sig.current_price⌋ < 1 → executeAuto st now = st)) ∧
    (sig.signal = SignalKind.SELL → 0 < st.livePosition →
      (executeAuto st now).livePosition = 0 ∧
        (executeAuto st now).liveBalance =
          st.liveBalance + st.livePosition * sig.current_price) := by
  have hcost := floor_cost_le st.liveBalance sig.current_price hpr
  by_cases hb : sig.signal = SignalKind.BUY ∧ st.livePosition = 0
  · by_cases hn : 0 < ⌊st.liveBalance / sig.current_price⌋
    · rw [executeAuto_buy_fire st now sig hs hm hb hn]
      refine ⟨⟨?_, ?_⟩, ?_, ?_⟩
      · simp only [buyResult]
        linarith
      · simp only [buyResult, hb.2, zero_add]
        omega
      · intro _ _
        refine ⟨fun _ => ⟨?_, ?_, hcost⟩, fun hlt => absurd hn (by omega)⟩
        · simp only [buyResult, hb.2, zero_add]
        · simp only [buyResult]
      · intro hsell _
        rw [hb.1] at hsell
        exact absurd hsell (by simp)
    · rw [executeAuto_buy_nofire st now sig hs hm hb hn]
      refine ⟨⟨hb0, hp0⟩, ?_, ?_⟩
      · intro _ _
        exact ⟨fun h1 => absurd h1 (by omega), fun _ => rfl⟩
      · intro hsell _
        rw [hb.1] at hsell
        exact absurd hsell (by simp)
  · by_cases hc : sig.signal = SignalKind.SELL ∧ 0 < st.livePosition
    · rw [executeAuto_sell_fire st now sig hs hm hb hc]
      have hrev : (0 : ℚ) ≤ st.livePosition * sig.current_price := by
        have : (0 : ℚ) ≤ (st.livePosition : ℚ) := by exact_mod_cast hp0
        positivity
      refine ⟨⟨by simp only [sellResult]; linarith, by simp [sellResult]⟩, ?_, ?_⟩
      · intro hbuy hpos
        exact absurd ⟨hbuy, hpos⟩ hb
      · intro _ _
        exact ⟨by simp [sellResult], by simp only [sellResult]⟩
    · rw [executeAuto_nofire st now sig hs hm hb hc]
      refine ⟨⟨hb0, hp0⟩, ?_, ?_⟩
      · intro hbuy hpos
        exact absurd ⟨hbuy, hpos⟩ hb
      · intro hsell hpos
        exact absurd ⟨hsell, hpos⟩ hc

/-- Witness for C2 at a concrete input: balance 10000, flat position,
BUY signal at price 250 — the nonnegativity part of the conclusion
at that state. -/
theorem tradeExec_preserves_portfolio_invariant_witness :
    ((0 : ℚ) ≤ 10000 ∧ (0 : ℤ) ≤ 0 ∧ (0 : ℚ) < 250) ∧
      (0 ≤
          (executeAuto
            { liveMode := true
              liveSignal := some { signal := SignalKind.BUY, current_price := 250 }
              liveBalance := 10000
              livePosition := 0
              liveTransactions := []
              lastUpdateTime := none
              liveStartTime := none } 0).liveBalance ∧
        0 ≤
          (executeAuto
            { liveMode := true
              liveSignal := some { signal := SignalKind.BUY, current_price := 250 }
              liveBalance := 10000
              livePosition := 0
              liveTransactions := []
              lastUpdateTime := none
              liveStartTime := none } 0).livePosition) :=
  ⟨⟨by norm_num, by norm_num, by norm_num⟩,
    (tradeExec_preserves_portfolio_invariant _ 0 _ rfl rfl (by norm_num) (by norm_num)
        (by norm_num)).1⟩

/-- C9: a failed data fetch during a live refresh is abandoned
atomically: the whole component state — previous signal, last-update
timestamp, cash, shares held and the transaction log — is returned
unchanged, and retrying later behaves exactly as if the failed tick
had never happened. -/
theorem refresh_failure_atomic (st : SimState) (now : ℤ) :
    refreshLiveSignal st none now = st ∧
      ∀ (retryResult : Option Signal) (later : ℤ),
        refreshLiveSignal (refreshLiveSignal st none now) retryResult later =
          refreshLiveSignal st retryResult later := by
  have h : refreshLiveSignal st none now = st := by
    rcases hm : st.liveMode with _ | _ <;> simp [refreshLiveSignal, hm]
  exact ⟨h, fun retryResult later => by rw [h]⟩

/-- One point of the reconstructed equity curve; the ISO timestamp
string is modelled as an integer epoch, the empty-string fallback of
the initial point as 0. -/
structure EquityPoint where
  value : ℚ
  timestamp : ℤ
deriving DecidableEq, Repr

/-- The loop body of the equity-curve reconstruction in
`stopLiveSimulation` (lines 276-288): walks the transactions oldest
first, threads `runningBalance` and `runningPosition`, and pushes one
point per trade whose value is `tx.balance_after + runningPosition ×
tx.price` after the running state was updated for that trade. -/
def reconCurveAux : ℚ → ℤ → List Trade → List EquityPoint
  | _, _, [] => []
  | runningBalance, runningPosition, tx :: rest =>
    let runningBalance' :=
      match tx.ty with
      | TradeType.buy => runningBalance - tx.shares * tx.price
      | TradeType.sell => runningBalance + tx.shares * tx.price
    let runningPosition' : ℤ :=
      match tx.ty with
      | TradeType.buy => runningPosition + tx.shares
      | TradeType.sell => 0
    { value := tx.balance_after + runningPosition' * tx.price, timestamp := tx.timestamp }
      :: reconCurveAux runningBalance' runningPosition' rest

/-- The equity curve computed on stop: the initial-capital point,
then one point per recorded trade, oldest first (the stored log is
newest first and is reversed). -/
def reconstructCurve (st : SimState) : List EquityPoint :=
  { value := liveInitialCapital, timestamp := st.liveStartTime.getD 0 }
    :: reconCurveAux liveInitialCapital 0 st.liveTransactions.reverse

/-- The max-drawdown loop of `stopLiveSimulation` (lines 290-297):
running peak, percentage drawdown against the current peak, and the
most negative drawdown seen so far. -/
def maxDrawdownAux : List ℚ → ℚ → ℚ → ℚ
  | [], _, maxDrawdown => maxDrawdown
  | v :: rest, peak, maxDrawdown =>
    let peak' := if peak < v then v else peak
    let drawdown := (v - peak') / peak' * 100
    let maxDrawdown' := if drawdown < maxDrawdown then drawdown else maxDrawdown
    maxDrawdownAux rest peak' maxDrawdown'

/-- A definition following the alternative reading that C5 rules
out: the drawdown of every point measured against one global peak
taken over the whole curve in advance. -/
def globalPeakDrawdown (values : List ℚ) (initPeak : ℚ) : ℚ :=
  let peak := values.foldl (fun p v => if p < v then v else p) initPeak
  values.foldl
    (fun m v =>
      let drawdown := (v - peak) / peak * 100
      if drawdown < m then drawdown else m)
    0

/-- The consecutive point-to-point returns of the equity curve
(lines 300-304): `(c[i] − c[i−1]) / c[i−1]` for `i ≥ 1`. -/
def pointReturns : List ℚ → List ℚ
  | a :: b :: rest => (b - a) / a :: pointReturns (b :: rest)
  | _ => []

/-- `avgReturn` (line 305): the arithmetic mean of the returns, 0
for an empty list. -/
def avgReturn (returns : List ℚ) : ℚ :=
  if 0 < returns.length then returns.sum / returns.length else 0

/-- The radicand of `stdDev` (lines 306-308): the mean of squared
deviations from the mean, 0 for an empty list. -/
def varianceOf (returns : List ℚ) : ℚ :=
  if 0 < returns.length then
    ((returns.map fun n => (n - avgReturn returns) ^ 2).sum) / returns.length
  else 0

/-- `stdDev` (lines 306-308): the square root of the mean squared
deviation when any returns exist, otherwise 0. -/
noncomputable def stdDevOf (returns : List ℚ) : ℝ :=
  if 0 < returns.length then Real.sqrt (varianceOf returns) else 0

open Classical in
/-- `sharpeRatio` (line 309): `(avgReturn / stdDev) * Math.sqrt(252)`
when the standard deviation is nonzero, otherwise 0. -/
noncomputable def sharpeRatioOf (returns : List ℚ) : ℝ :=
  if stdDevOf returns ≠ 0 then (avgReturn returns : ℝ) / stdDevOf returns * Real.sqrt 252
  else 0

/-- The `performance` record assembled by `stopLiveSimulation`
(lines 315-324). -/
structure Performance where
  initial_capital : ℚ
  final_balance : ℚ
  total_return_percent : ℚ
  max_drawdown_percent : ℚ
  sharpe_ratio : ℝ
  total_trades : ℕ
  duration_seconds : ℤ
  trades : List Trade

/-- `stopLiveSimulation` (TradeSimulator.tsx lines 262-324), up to
the performance record it stores: values the held position at
`liveSignal?.current_price || 0`, reconstructs the equity curve from
the reversed transaction log plus the initial point, and computes
total return, max drawdown, the simplified Sharpe ratio and the
wall-clock duration in whole seconds. -/
noncomputable def stopLiveSimulation (st : SimState) (now : ℤ) : Performance :=
  let finalValue := st.liveBalance + st.livePosition * priceOrZero st.liveSignal
  let totalReturn := (finalValue - liveInitialCapital) / liveInitialCapital * 100
  let equityCurve := reconstructCurve st
  let values := equityCurve.map EquityPoint.value
  let maxDrawdown := maxDrawdownAux values liveInitialCapital 0
  let returns := pointReturns values
  let sharpeRatio := sharpeRatioOf returns
  let duration : ℤ :=
    match st.liveStartTime with
    | some t => ⌊((now - t : ℚ)) / 1000⌋
    | none => 0
  { initial_capital := liveInitialCapital
    final_balance := finalValue
    total_return_percent := totalReturn
    max_drawdown_percent := maxDrawdown
    sharpe_ratio := sharpeRatio
    total_trades := st.liveTransactions.length
    duration_seconds := duration
    trades := st.liveTransactions.reverse }

/-- C7: on stop the reported total return is
(final_value − initial_capital)/initial_capital × 100 with
final_value = cash + shares_held × current price, and the
performance record stores the trade count (the number of recorded
transactions), the trade list (oldest first) and the run duration
stop_time − start_time in whole seconds. -/
theorem stop_total_return_and_summary (st : SimState) (now : ℤ) :
    (stopLiveSimulation st now).final_balance =
        st.liveBalance + st.livePosition * priceOrZero st.liveSignal ∧
      (stopLiveSimulation st now).total_return_percent =
        (st.liveBalance + st.livePosition * priceOrZero st.liveSignal - liveInitialCapital) /
            liveInitialCapital * 100 ∧
      (stopLiveSimulation st now).initial_capital = liveInitialCapital ∧
      (stopLiveSimulation st now).total_trades = st.liveTransactions.length ∧
      (stopLiveSimulation st now).trades = st.liveTransactions.reverse ∧
      (∀ t : ℤ, st.liveStartTime = some t →
        (stopLiveSimulation st now).duration_seconds = ⌊((now : ℚ) - (t : ℚ)) / 1000⌋) ∧
      (st.liveStartTime = none → (stopLiveSimulation st now).duration_seconds = 0) := by
  refine ⟨rfl, rfl, rfl, rfl, rfl, ?_, ?_⟩
  · intro t ht
    simp [stopLiveSimulation, ht]
  · intro ht
    simp [stopLiveSimulation, ht]

/-- Witness for C7: a run started at epoch 3 ms and stopped at
5003 ms reports a duration of 5 whole seconds. -/
theorem stop_total_return_and_summary_witness :
    (SimState.liveStartTime
        { liveMode := true
          liveSignal := none
          liveBalance := 10000
          livePosition := 0
          liveTransactions := []
          lastUpdateTime := none
          liveStartTime := some 3 } = some 3) ∧
      (stopLiveSimulation
          { liveMode := true
            liveSignal := none
            liveBalance := 10000
            livePosition := 0
            liveTransactions := []
            lastUpdateTime := none
            liveStartTime := some 3 } 5003).duration_seconds =
        ⌊(((5003 : ℤ) : ℚ) - ((3 : ℤ) : ℚ)) / 1000⌋ :=
  ⟨rfl, (stop_total_return_and_summary _ 5003).2.2.2.2.2.1 3 rfl⟩

/-- C10: stopping the live simulation with no current signal values
the held position at price 0, so the final value is the remaining
cash alone and the total return treats held shares as worthless. -/
theorem stop_without_signal_values_position_zero (st : SimState) (now : ℤ)
    (h : st.liveSignal = none) :
    (stopLiveSimulation st now).final_balance = st.liveBalance ∧
      (stopLiveSimulation st now).total_return_percent =
        (st.liveBalance - liveInitialCapital) / liveInitialCapital * 100 := by
  constructor <;> simp [stopLiveSimulation, priceOrZero, h]

/-- Witness for C10: stopping with 7 shares held and no signal
reports only the 200 remaining cash. -/
theorem stop_without_signal_values_position_zero_witness :
    (SimState.liveSignal
        { liveMode := true
          liveSignal := none
          liveBalance := 200
          livePosition := 7
          liveTransactions := []
          lastUpdateTime := none
          liveStartTime := none } = none) ∧
      ((stopLiveSimulation
            { liveMode := true
              liveSignal := none
              liveBalance := 200
              livePosition := 7
              liveTransactions := []
              lastUpdateTime := none
              liveStartTime := none } 9).final_balance =
          SimState.liveBalance
            { liveMode := true
              liveSignal := none
              liveBalance := 200
              livePosition := 7
              liveTransactions := []
              lastUpdateTime := none
              liveStartTime := none } ∧
        (stopLiveSimulation
              { liveMode := true
                liveSignal := none
                liveBalance := 200
                livePosition := 7
                liveTransactions := []
                lastUpdateTime := none
                liveStartTime := none } 9).total_return_percent =
          (SimState.liveBalance
                { liveMode := true
                  liveSignal := none
                  liveBalance := 200
                  livePosition := 7
                  liveTransactions := []
                  lastUpdateTime := none
                  liveStartTime := none } -
              liveInitialCapital) /
              liveInitialCapital * 100) :=
  ⟨rfl, stop_without_signal_values_position_zero _ 9 rfl⟩

/-- The running max drawdown never increases along the loop. -/
lemma maxDrawdownAux_le (l : List ℚ) :
    ∀ peak m, maxDrawdownAux l peak m ≤ m := by
  induction l with
  | nil => intro peak m; exact le_refl m
  | cons v rest ih =>
    intro peak m
    simp only [maxDrawdownAux]
    refine le_trans (ih _ _) ?_
    split_ifs with h1 h2 h3 <;> linarith

/-- Along a non-decreasing curve dominated by the running peak, every
drawdown is 0 and the loop returns its accumulator 0. -/
lemma maxDrawdownAux_chain (l : List ℚ) :
    ∀ peak, List.Chain' (· ≤ ·) (peak :: l) → maxDrawdownAux l peak 0 = 0 := by
  induction l with
  | nil => intro peak _; rfl
  | cons v rest ih =>
    intro peak hch
    rw [List.chain'_cons] at hch
    have hpv : peak ≤ v := hch.1
    simp only [maxDrawdownAux]
    have hpeak : (if peak < v then v else peak) = v := by
      split_ifs with h
      · rfl
      · exact le_antisymm hpv (not_lt.mp h)
    rw [hpeak]
    have hdd : (v - v) / v * 100 = 0 := by ring_nf
    rw [hdd, if_neg (lt_irrefl 0)]
    exact ih v hch.2

/-- C5: the max drawdown reported on stop is always ≤ 0, equals 0
whenever the reconstructed equity curve is monotonically
non-decreasing, and is the running-peak drawdown: on the curve
10000, 9000, 20000 the code reports −10 (trough against the peak
seen so far) while a global peak taken in advance would report −55. -/
theorem maxDrawdown_nonpos_running_peak :
    (∀ (st : SimState) (now : ℤ), (stopLiveSimulation st now).max_drawdown_percent ≤ 0) ∧
      (∀ (st : SimState) (now : ℤ),
        List.Chain' (· ≤ ·) ((reconstructCurve st).map EquityPoint.value) →
          (stopLiveSimulation st now).max_drawdown_percent = 0) ∧
      maxDrawdownAux [10000, 9000, 20000] liveInitialCapital 0 = -10 ∧
      globalPeakDrawdown [10000, 9000, 20000] liveInitialCapital = -55 := by
  refine ⟨?_, ?_, ?_, ?_⟩
  · intro st now
    exact maxDrawdownAux_le _ _ _
  · intro st now hch
    rw [show (reconstructCurve st).map EquityPoint.value =
        liveInitialCapital ::
          (reconCurveAux liveInitialCapital 0 st.liveTransactions.reverse).map EquityPoint.value
      from rfl] at hch
    exact maxDrawdownAux_chain _ _ (List.chain'_cons.mpr ⟨le_refl _, hch⟩)
  · norm_num [maxDrawdownAux, liveInitialCapital]
  · norm_num [globalPeakDrawdown, liveInitialCapital]

/-- Witness for C5: the empty run's curve is the single
initial-capital point, which is non-decreasing, and its reported max
drawdown is 0. -/
theorem maxDrawdown_nonpos_running_peak_witness :
    List.Chain' (· ≤ ·) ((reconstructCurve initialComponentState).map EquityPoint.value) ∧
      (stopLiveSimulation initialComponentState 0).max_drawdown_percent = 0 := by
  have hch :
      List.Chain' (· ≤ ·) ((reconstructCurve initialComponentState).map EquityPoint.value) := by
    simp [reconstructCurve, reconCurveAux, initialComponentState]
  exact ⟨hch, maxDrawdown_nonpos_running_peak.2.1 initialComponentState 0 hch⟩

/-- The reconstruction loop emits exactly one point per trade. -/
lemma reconCurveAux_length (l : List Trade) :
    ∀ b p, (reconCurveAux b p l).length = l.length := by
  induction l with
  | nil => intro b p; rfl
  | cons tx rest ih =>
    intro b p
    simp only [reconCurveAux, List.length_cons, ih]

/-- C6: the Sharpe ratio reported on stop is the simplified
annualized formula over the consecutive point-to-point returns of
the reconstructed equity curve: mean/stdev × √252 when the standard
deviation is nonzero, and 0 when it is zero — in particular 0
whenever the curve has fewer than two points. -/
theorem sharpeRatio_formula_and_zero_cases (st : SimState) (now : ℤ) :
    (stopLiveSimulation st now).sharpe_ratio =
        sharpeRatioOf (pointReturns ((reconstructCurve st).map EquityPoint.value)) ∧
      (stdDevOf (pointReturns ((reconstructCurve st).map EquityPoint.value)) = 0 →
        (stopLiveSimulation st now).sharpe_ratio = 0) ∧
      (stdDevOf (pointReturns ((reconstructCurve st).map EquityPoint.value)) ≠ 0 →
        (stopLiveSimulation st now).sharpe_ratio =
          ((avgReturn (pointReturns ((reconstructCurve st).map EquityPoint.value)) : ℚ) : ℝ) /
              stdDevOf (pointReturns ((reconstructCurve st).map EquityPoint.value)) *
            Real.sqrt 252) ∧
      ((reconstructCurve st).length < 2 → (stopLiveSimulation st now).sharpe_ratio = 0) := by
  have hz : stdDevOf (pointReturns ((reconstructCurve st).map EquityPoint.value)) = 0 →
      (stopLiveSimulation st now).sharpe_ratio = 0 := by
    intro h
    show sharpeRatioOf _ = 0
    rw [sharpeRatioOf, if_neg (not_not_intro h)]
  refine ⟨rfl, hz, ?_, ?_⟩
  · intro h
    show sharpeRatioOf _ = _
    rw [sharpeRatioOf, if_pos h]
  · intro hlen
    apply hz
    have h1 : (reconstructCurve st).length = st.liveTransactions.length + 1 := by
      simp [reconstructCurve, reconCurveAux_length]
    rw [h1] at hlen
    have h0 : st.liveTransactions.length = 0 := by omega
    have hτ : st.liveTransactions = [] := List.length_eq_zero.mp h0
    have hvals : (reconstructCurve st).map EquityPoint.value = [liveInitialCapital] := by
      simp [reconstructCurve, hτ, reconCurveAux]
    rw [hvals]
    simp [pointReturns, stdDevOf]

/-- Witness for C6: the empty run's curve has a single point, and
the reported Sharpe ratio is 0. -/
theorem sharpeRatio_formula_and_zero_cases_witness :
    (reconstructCurve initialComponentState).length < 2 ∧
      (stopLiveSimulation initialComponentState 0).sharpe_ratio = 0 := by
  have hlen : (reconstructCurve initialComponentState).length < 2 := by
    simp [reconstructCurve, reconCurveAux, initialComponentState]
  exact ⟨hlen, (sharpeRatio_formula_and_zero_cases initialComponentState 0).2.2.2 hlen⟩

/-- The running-position update of the reconstruction loop for one
trade: a buy adds its shares, a sell zeroes the position. -/
def txPosStep (p : ℤ) (tx : Trade) : ℤ :=
  match tx.ty with
  | TradeType.buy => p + tx.shares
  | TradeType.sell => 0

/-- The running position after replaying a trade list oldest first. -/
def txPosFold (p : ℤ) (l : List Trade) : ℤ :=
  l.foldl txPosStep p

/-- One live tick that reaches the component: a successful refresh
delivering `ev.1` at time `ev.2`, followed by the auto-execution
effect that the signal update triggers. -/
def applyEvent (st : SimState) (ev : Signal × ℤ) : SimState :=
  executeAuto (refreshLiveSignal st (some ev.1) ev.2) ev.2

/-- Replaying a list of live ticks. -/
def runEvents (st : SimState) : List (Signal × ℤ) → SimState
  | [] => st
  | ev :: rest => runEvents (applyEvent st ev) rest

/-- The component state right after `startLiveSimulation` succeeds at
time `t0` on a fresh component (live mode on, timestamps set, capital
and position untouched); the start response's signal is delivered as
the first tick. -/
def liveStart (t0 : ℤ) : SimState :=
  { initialComponentState with
      liveMode := true
      lastUpdateTime := some t0
      liveStartTime := some t0 }

/-- The claimed equity values, read off the run itself: one value per
executed trade, equal to cash + shares_held × that trade's price in
the state immediately after the trade. -/
def idealEquities (st : SimState) : List (Signal × ℤ) → List ℚ
  | [] => []
  | ev :: rest =>
    let st' := applyEvent st ev
    if st'.liveTransactions.length = st.liveTransactions.length then idealEquities st' rest
    else (st'.liveBalance + st'.livePosition * ev.1.current_price) :: idealEquities st' rest

/-- The point the reconstruction loop emits for one trade, given the
running position before it. -/
def reconPoint (p : ℤ) (tx : Trade) : EquityPoint :=
  { value := tx.balance_after + txPosStep p tx * tx.price, timestamp := tx.timestamp }

lemma txPosFold_append (l : List Trade) (tx : Trade) :
    ∀ p, txPosFold p (l ++ [tx]) = txPosStep (txPosFold p l) tx := by
  intro p
  simp [txPosFold, List.foldl_append]

lemma reconCurveAux_append (l : List Trade) (tx : Trade) :
    ∀ b p, reconCurveAux b p (l ++ [tx]) = reconCurveAux b p l ++ [reconPoint (txPosFold p l) tx] := by
  induction l with
  | nil =>
    intro b p
    rcases tx with ⟨ty, sh, pr, ts, ba⟩
    cases ty <;> rfl
  | cons hd rest ih =>
    intro b p
    rcases hd with ⟨ty, sh, pr, ts, ba⟩
    cases ty <;> simp only [List.cons_append, reconCurveAux] <;>
      refine congrArg _ ?_ <;> exact ih _ _

/-- What one live tick can do to the transaction log, in live mode:
either nothing, or it prepends exactly one trade whose price is the
tick's price, whose recorded balance_after is the new cash, and whose
position update law yields the new position. -/
lemma applyEvent_spec (st : SimState) (ev : Signal × ℤ) (hm : st.liveMode = true) :
    (applyEvent st ev).liveMode = true ∧
      (((applyEvent st ev).liveTransactions = st.liveTransactions ∧
          (applyEvent st ev).livePosition = st.livePosition ∧
          (applyEvent st ev).liveBalance = st.liveBalance) ∨
        ∃ tx : Trade,
          (applyEvent st ev).liveTransactions = tx :: st.liveTransactions ∧
            tx.price = ev.1.current_price ∧
            tx.balance_after = (applyEvent st ev).liveBalance ∧
            txPosStep st.livePosition tx = (applyEvent st ev).livePosition) := by
  have hR : refreshLiveSignal st (some ev.1) ev.2 =
      { st with liveSignal := some ev.1, lastUpdateTime := some ev.2 } := by
    simp [refreshLiveSignal, hm]
  set stR : SimState := { st with liveSignal := some ev.1, lastUpdateTime := some ev.2 } with hstR
  have hRS : stR.liveSignal = some ev.1 := rfl
  have hRM : stR.liveMode = true := hm
  have happ : applyEvent st ev = executeAuto stR ev.2 := by
    rw [applyEvent, hR]
  by_cases hb : ev.1.signal = SignalKind.BUY ∧ stR.livePosition = 0
  · by_cases hn : 0 < ⌊stR.liveBalance / ev.1.current_price⌋
    · rw [happ, executeAuto_buy_fire stR ev.2 ev.1 hRS hRM hb hn]
      refine ⟨hm, Or.inr ⟨_, rfl, rfl, rfl, ?_⟩⟩
      simp [txPosStep, buyResult]
    · rw [happ, executeAuto_buy_nofire stR ev.2 ev.1 hRS hRM hb hn]
      exact ⟨hm, Or.inl ⟨rfl, rfl, rfl⟩⟩
  · by_cases hc : ev.1.signal = SignalKind.SELL ∧ 0 < stR.livePosition
    · rw [happ, executeAuto_sell_fire stR ev.2 ev.1 hRS hRM hb hc]
      refine ⟨hm, Or.inr ⟨_, rfl, rfl, rfl, ?_⟩⟩
      simp [txPosStep, sellResult]
    · rw [happ, executeAuto_nofire stR ev.2 ev.1 hRS hRM hb hc]
      exact ⟨hm, Or.inl ⟨rfl, rfl, rfl⟩⟩

/-- Replaying ticks and then reconstructing the curve appends exactly
the per-trade equity values of the run. -/
lemma runEvents_recon (evs : List (Signal × ℤ)) :
    ∀ (st : SimState) (b : ℚ), st.liveMode = true →
      txPosFold 0 st.liveTransactions.reverse = st.livePosition →
      ((reconCurveAux b 0 ((runEvents st evs).liveTransactions.reverse)).map EquityPoint.value =
          (reconCurveAux b 0 st.liveTransactions.reverse).map EquityPoint.value
            ++ idealEquities st evs) ∧
        txPosFold 0 ((runEvents st evs).liveTransactions.reverse) =
          (runEvents st evs).livePosition := by
  induction evs with
  | nil =>
    intro st b hm hinv
    exact ⟨by simp [runEvents, idealEquities], hinv⟩
  | cons ev rest ih =>
    intro st b hm hinv
    obtain ⟨hm', hcase⟩ := applyEvent_spec st ev hm
    have hrun : runEvents st (ev :: rest) = runEvents (applyEvent st ev) rest := rfl
    rcases hcase with ⟨htx, hpos, -⟩ | ⟨tx, htx, hprice, hba, hstep⟩
    · have hinv' : txPosFold 0 (applyEvent st ev).liveTransactions.reverse =
          (applyEvent st ev).livePosition := by
        rw [htx, hpos]; exact hinv
      obtain ⟨ihc, ihp⟩ := ih (applyEvent st ev) b hm' hinv'
      rw [hrun]
      refine ⟨?_, ihp⟩
      rw [ihc, htx]
      have hideal : idealEquities st (ev :: rest) = idealEquities (applyEvent st ev) rest := by
        rw [idealEquities, if_pos (by rw [htx])]
      rw [hideal]
    · have hrev : (applyEvent st ev).liveTransactions.reverse =
          st.liveTransactions.reverse ++ [tx] := by
        rw [htx, List.reverse_cons]
      have hinv' : txPosFold 0 (applyEvent st ev).liveTransactions.reverse =
          (applyEvent st ev).livePosition := by
        rw [hrev, txPosFold_append, hinv, hstep]
      obtain ⟨ihc, ihp⟩ := ih (applyEvent st ev) b hm' hinv'
      rw [hrun]
      refine ⟨?_, ihp⟩
      rw [ihc]
      have hcurve : (reconCurveAux b 0 (applyEvent st ev).liveTransactions.reverse).map
            EquityPoint.value =
          (reconCurveAux b 0 st.liveTransactions.reverse).map EquityPoint.value ++
            [(applyEvent st ev).liveBalance +
              (applyEvent st ev).livePosition * ev.1.current_price] := by
        rw [hrev, reconCurveAux_append, List.map_append, hinv]
        simp [reconPoint, hba, hstep, hprice]
      rw [hcurve]
      have hideal : idealEquities st (ev :: rest) =
          ((applyEvent st ev).liveBalance +
              (applyEvent st ev).livePosition * ev.1.current_price) ::
            idealEquities (applyEvent st ev) rest := by
        rw [idealEquities, if_neg (by rw [htx]; simp)]
      rw [hideal, List.append_assoc]
      rfl

/-- C8: the equity curve reconstructed on stop from the ordered trade
log has exactly one point per recorded trade plus the initial
capital point, and for any run of live ticks from a freshly started
simulation its point values are the initial capital followed by, for
each executed trade, cash + shares_held × that trade's price in the
state immediately after the trade. -/
theorem equity_curve_reconstruction :
    (∀ st : SimState, (reconstructCurve st).length = st.liveTransactions.length + 1) ∧
      ∀ (t0 : ℤ) (evs : List (Signal × ℤ)),
        (reconstructCurve (runEvents (liveStart t0) evs)).map EquityPoint.value =
          liveInitialCapital :: idealEquities (liveStart t0) evs := by
  constructor
  · intro st
    simp [reconstructCurve, reconCurveAux_length]
  · intro t0 evs
    have h := runEvents_recon evs (liveStart t0) liveInitialCapital rfl rfl
    rw [show (reconstructCurve (runEvents (liveStart t0) evs)).map EquityPoint.value =
        liveInitialCapital ::
          (reconCurveAux liveInitialCapital 0
            ((runEvents (liveStart t0) evs).liveTransactions.reverse)).map EquityPoint.value
      from rfl]
    rw [h.1]
    rfl

/-- Modelled from the spec: the backend Composite Aggregator is not
among the staged sources; per spec §4.2 and
COMPOSITE_SCORE_SYSTEM.md, `Composite Score = round(0.40 × Technical
+ 0.40 × Financial + 0.20 × Sentiment)` with fixed weights. -/
def compositeScore (technical financial sentiment : ℚ) : ℤ :=
  round (0.40 * technical + 0.40 * financial + 0.20 * sentiment)

/-- Modelled from the spec: the fixed technical weight of the
composite score. -/
def weightTechnical : ℚ := 0.40

/-- Modelled from the spec: the fixed financial weight of the
composite score. -/
def weightFinancial : ℚ := 0.40

/-- Modelled from the spec: the fixed sentiment weight of the
composite score. -/
def weightSentiment : ℚ := 0.20

/-- C3: for sub-scores in [0,100] the composite score
round(0.40·technical + 0.40·financial + 0.20·sentiment), with the
fixed 40/40/20 weight constants, is an integer in [0,100]; three
100s give 100 and three 0s give 0. -/
theorem compositeScore_weights_bounds (t f s : ℚ)
    (ht0 : 0 ≤ t) (ht1 : t ≤ 100) (hf0 : 0 ≤ f) (hf1 : f ≤ 100)
    (hs0 : 0 ≤ s) (hs1 : s ≤ 100) :
    compositeScore t f s =
        round (weightTechnical * t + weightFinancial * f + weightSentiment * s) ∧
      0 ≤ compositeScore t f s ∧ compositeScore t f s ≤ 100 ∧
      compositeScore 100 100 100 = 100 ∧ compositeScore 0 0 0 = 0 := by
  have hlo : (0 : ℚ) ≤ 0.40 * t + 0.40 * f + 0.20 * s := by linarith
  have hhi : 0.40 * t + 0.40 * f + 0.20 * s ≤ 100 := by linarith
  refine ⟨rfl, ?_, ?_, ?_, ?_⟩
  · rw [compositeScore, round_eq]
    have : (0 : ℚ) ≤ 0.40 * t + 0.40 * f + 0.20 * s + 1 / 2 := by linarith
    exact Int.le_floor.mpr (by push_cast; linarith)
  · rw [compositeScore, round_eq]
    have h1 : (0.40 * t + 0.40 * f + 0.20 * s + 1 / 2 : ℚ) < 101 := by linarith
    have h2 : ⌊(0.40 * t + 0.40 * f + 0.20 * s + 1 / 2 : ℚ)⌋ < 101 :=
      Int.floor_lt.mpr (by push_cast; linarith)
    omega
  · norm_num [compositeScore, round_eq]
  · norm_num [compositeScore, round_eq]

/-- Witness for C3: sub-scores 80, 50, 30 are in range and give a
composite in [0,100]. -/
theorem compositeScore_weights_bounds_witness :
    ((0 : ℚ) ≤ 80 ∧ (80 : ℚ) ≤ 100 ∧ (0 : ℚ) ≤ 50 ∧ (50 : ℚ) ≤ 100 ∧
        (0 : ℚ) ≤ 30 ∧ (30 : ℚ) ≤ 100) ∧
      0 ≤ compositeScore 80 50 30 ∧ compositeScore 80 50 30 ≤ 100 :=
  ⟨⟨by norm_num, by norm_num, by norm_num, by norm_num, by norm_num, by norm_num⟩,
    (compositeScore_weights_bounds 80 50 30 (by norm_num) (by norm_num) (by norm_num)
        (by norm_num) (by norm_num) (by norm_num)).2.1,
    (compositeScore_weights_bounds 80 50 30 (by norm_num) (by norm_num) (by norm_num)
        (by norm_num) (by norm_num) (by norm_num)).2.2.1⟩

/-- Modelled from the spec: the backend's per-ticker average
sentiment, `sum/len` of the per-headline polarity scores and 0 when
there are no headlines (quoted in the repository's score
documentation from `backend/app/routers/stocks.py`). -/
def avgSentiment (sentiment_scores : List ℚ) : ℚ :=
  if 0 < sentiment_scores.length then sentiment_scores.sum / sentiment_scores.length else 0

/-- The three sentiment labels. -/
inductive SentimentLabel
  | Bullish
  | Bearish
  | Neutral
deriving DecidableEq, Repr

/-- Modelled from the spec: Bullish if the average polarity exceeds
0.1, Bearish if below −0.1, otherwise Neutral. -/
def sentimentLabel (avg_sentiment : ℚ) : SentimentLabel :=
  if 0.1 < avg_sentiment then SentimentLabel.Bullish
  else if avg_sentiment < -0.1 then SentimentLabel.Bearish
  else SentimentLabel.Neutral

/-- Modelled from the spec: the 0-100 sentiment score
`round((avg_sentiment + 1) × 50)` (the conversion quoted in the
repository's score documentation; the backend that now serves it is
not among the staged sources). -/
def sentimentScore (avg_sentiment : ℚ) : ℤ :=
  round ((avg_sentiment + 1) * 50)

/-- C4: the sentiment score is round((avg + 1) × 50) — 0 at −1.0, 66
at 0.32 and 100 at +1.0 — with no headlines the average is 0, giving
score 50 and label Neutral, and the label is Bullish iff avg > 0.1,
Bearish iff avg < −0.1 and Neutral otherwise. -/
theorem sentimentScore_formula_and_labels :
    (∀ avg : ℚ, sentimentScore avg = round ((avg + 1) * 50)) ∧
      sentimentScore (-1) = 0 ∧ sentimentScore 0.32 = 66 ∧ sentimentScore 1 = 100 ∧
      avgSentiment [] = 0 ∧ sentimentScore (avgSentiment []) = 50 ∧
      sentimentLabel (avgSentiment []) = SentimentLabel.Neutral ∧
      ∀ avg : ℚ,
        (sentimentLabel avg = SentimentLabel.Bullish ↔ 0.1 < avg) ∧
          (sentimentLabel avg = SentimentLabel.Bearish ↔ avg < -0.1) ∧
          (sentimentLabel avg = SentimentLabel.Neutral ↔ -0.1 ≤ avg ∧ avg ≤ 0.1) := by
  refine ⟨fun avg => rfl, ?_, ?_, ?_, rfl, ?_, ?_, ?_⟩
  · norm_num [sentimentScore, round_eq]
  · norm_num [sentimentScore, round_eq]
  · norm_num [sentimentScore, round_eq]
  · norm_num [sentimentScore, avgSentiment, round_eq]
  · norm_num [sentimentLabel, avgSentiment]
  · intro avg
    rw [sentimentLabel]
    split_ifs with h1 h2
    · refine ⟨iff_of_true rfl h1, iff_of_false (by simp) (by linarith),
        iff_of_false (by simp) ?_⟩
      rintro ⟨-, h⟩
      linarith
    · exact ⟨iff_of_false (by simp) h1, iff_of_true rfl h2,
        iff_of_false (by simp) (fun h => absurd h2 (by push_neg; exact h.1))⟩
    · push_neg at h1 h2
      exact ⟨iff_of_false (by simp) (fun h => absurd h (not_lt.mpr h1)),
        iff_of_false (by simp) (fun h => absurd h (not_lt.mpr h2)),
        iff_of_true rfl ⟨h2, h1⟩⟩
